import Mathlib

/-!
Verification of the OpenArc archiver core against its specification.

Bytes are modelled as natural numbers; a byte list models a Rust `&[u8]` /
`Vec<u8>`.  Machine-integer operations are modelled with explicit `% 2^w`
truncation at the points where the Rust code narrows a value.
-/

namespace OpenArc

/-! ## Byte-level helpers (little-endian words, `arcmax/src/core/varint.rs`) -/

/-- Little-endian value of a byte list, as `u64::from_le_bytes` /
`u32::from_le_bytes` compute it (each entry truncated to a byte). -/
def fromLE : List Nat → Nat
  | [] => 0
  | b :: t => b % 256 + 256 * fromLE t

/-- The first `k` little-endian bytes of `w`, i.e. `w.to_le_bytes()[..k]`. -/
def leBytes (k : Nat) (w : Nat) : List Nat :=
  (List.range k).map (fun i => w >>> (8 * i) % 256)

/-- The zero-padded 8-byte buffer `buf` that `decode_varint` builds from the
input slice: `buf[..available].copy_from_slice(&data[..available])`. -/
def padBuf (n : Nat) (data : List Nat) : List Nat :=
  data.take n ++ List.replicate (n - data.length) 0

/-- `encode_varint` from `arcmax/src/core/varint.rs`: FreeARC variable-length
integer encoding; the number of trailing zero bits of the first byte selects
the width. -/
def encode_varint (value : Nat) : List Nat :=
  if value < 1 <<< 7 then
    leBytes 1 (value <<< 1)
  else if value < 1 <<< 14 then
    leBytes 2 ((value <<< 2) ||| 1)
  else if value < 1 <<< 21 then
    leBytes 3 ((value <<< 3) ||| 3)
  else if value < 1 <<< 28 then
    leBytes 4 ((value <<< 4) ||| 7)
  else if value < 1 <<< 35 then
    leBytes 5 ((value <<< 5) ||| 15)
  else if value < 1 <<< 42 then
    leBytes 6 ((value <<< 6) ||| 31)
  else if value < 1 <<< 49 then
    leBytes 7 ((value <<< 7) ||| 63)
  else if value < 1 <<< 56 then
    leBytes 8 ((value <<< 8) ||| 127)
  else
    255 :: leBytes 8 value

/-- `decode_varint` from `arcmax/src/core/varint.rs`.  Returns
`(value, bytes_consumed)`; `none` models the two `bail!` error paths
(empty slice, or a 9-byte varint with fewer than 9 bytes available).
`fromLE (padBuf 4 data)` is the `x32` word built from `buf[0..4]`,
`fromLE (padBuf 8 data)` the `x64` word built from `buf[0..8]`, and
`fromLE (padBuf k data)` the little-endian word of `[buf[0], .., buf[k-1]]`
used by the 1/2/3-byte branches. -/
def decode_varint (data : List Nat) : Option (Nat × Nat) :=
  if data = [] then none
  else if fromLE (padBuf 4 data) &&& 1 = 0 then
    some (fromLE (padBuf 1 data) >>> 1, 1)
  else if fromLE (padBuf 4 data) &&& 3 = 1 then
    some (fromLE (padBuf 2 data) >>> 2, 2)
  else if fromLE (padBuf 4 data) &&& 7 = 3 then
    some (fromLE (padBuf 3 data ++ [0]) >>> 3, 3)
  else if fromLE (padBuf 4 data) &&& 15 = 7 then
    some (fromLE (padBuf 4 data) >>> 4, 4)
  else if fromLE (padBuf 4 data) &&& 31 = 15 then
    some ((fromLE (padBuf 8 data) >>> 5) &&& (1 <<< 40 - 1), 5)
  else if fromLE (padBuf 4 data) &&& 63 = 31 then
    some ((fromLE (padBuf 8 data) >>> 6) &&& (1 <<< 48 - 1), 6)
  else if fromLE (padBuf 4 data) &&& 127 = 63 then
    some ((fromLE (padBuf 8 data) >>> 7) &&& (1 <<< 56 - 1), 7)
  else if fromLE (padBuf 4 data) &&& 255 = 127 then
    some (fromLE (padBuf 8 data) >>> 8, 8)
  else if data.length < 9 then none
  else
    some (fromLE [data.getD 1 0, data.getD 2 0, data.getD 3 0, data.getD 4 0,
                  data.getD 5 0, data.getD 6 0, data.getD 7 0, data.getD 8 0], 9)

/-- The spec's width table (§4.4): the minimum permitted byte count for a
value. -/
def specMinWidth (v : Nat) : Nat :=
  if v < 2 ^ 7 then 1
  else if v < 2 ^ 14 then 2
  else if v < 2 ^ 21 then 3
  else if v < 2 ^ 28 then 4
  else if v < 2 ^ 35 then 5
  else if v < 2 ^ 42 then 6
  else if v < 2 ^ 49 then 7
  else if v < 2 ^ 56 then 8
  else 9

example : decode_varint (encode_varint 0) = some (0, 1) := by decide
example : decode_varint (encode_varint 127) = some (127, 1) := by decide
example : decode_varint (encode_varint 128) = some (128, 2) := by decide
example : decode_varint (encode_varint 16384) = some (16384, 3) := by decide
example : decode_varint (encode_varint (2 ^ 28)) = some (2 ^ 28, 5) := by decide
example : decode_varint (encode_varint (2 ^ 60)) = some (2 ^ 60, 9) := by decide
example : decode_varint (encode_varint (2 ^ 64 - 1)) = some (2 ^ 64 - 1, 9) := by decide

example : decode_varint (encode_varint (2 ^ 28) ++ [255]) =
    some (2 ^ 28 + 31 * 2 ^ 35, 5) := by decide

/-! ### Little-endian word lemmas -/

theorem fromLE_append_replicate_zero (xs : List Nat) (n : Nat) :
    fromLE (xs ++ List.replicate n 0) = fromLE xs := by
  induction xs with
  | nil =>
    simp only [List.nil_append]
    induction n with
    | zero => rfl
    | succ m ih => simpa [fromLE, List.replicate_succ] using ih
  | cons b t ih => simp [fromLE, ih]

theorem leBytes_length (k w : Nat) : (leBytes k w).length = k := by
  simp [leBytes]

theorem leBytes_succ (k w : Nat) :
    leBytes (k + 1) w = w % 256 :: leBytes k (w >>> 8) := by
  simp only [leBytes, List.range_succ_eq_map, List.map_cons, List.map_map]
  refine congrArg₂ _ (by simp) ?_
  apply List.map_congr_left
  intro i _
  simp only [Function.comp_apply, Nat.succ_eq_add_one]
  rw [show 8 * (i + 1) = 8 + 8 * i by ring, Nat.shiftRight_add]

theorem fromLE_leBytes (k : Nat) : ∀ w, fromLE (leBytes k w) = w % 2 ^ (8 * k) := by
  induction k with
  | zero => intro w; simp [leBytes, fromLE, List.range_zero, Nat.mod_one]
  | succ m ih =>
    intro w
    rw [leBytes_succ, fromLE, ih, Nat.mod_mod_of_dvd _ (by norm_num : (256:Nat) ∣ 256),
      Nat.shiftRight_eq_div_pow]
    have h : 2 ^ (8 * (m + 1)) = 256 * 2 ^ (8 * m) := by
      rw [show 8 * (m + 1) = 8 + 8 * m by ring, pow_add]; norm_num
    rw [h, Nat.mod_mul]

theorem leBytes_take (j k w : Nat) :
    (leBytes k w).take j = leBytes (min j k) w := by
  simp [leBytes, ← List.map_take, List.take_range]

theorem fromLE_padBuf_leBytes (n k w : Nat) :
    fromLE (padBuf n (leBytes k w)) = w % 2 ^ (8 * min n k) := by
  rw [padBuf, leBytes_take, fromLE_append_replicate_zero, fromLE_leBytes]

theorem lor_shiftLeft_add (v k m : Nat) (h : m < 2 ^ k) :
    (v <<< k) ||| m = v * 2 ^ k + m := by
  apply Nat.eq_of_testBit_eq
  intro i
  rw [Nat.testBit_lor, Nat.testBit_shiftLeft]
  rw [show v * 2 ^ k + m = 2 ^ k * v + m by ring, Nat.testBit_mul_pow_two_add v h i]
  by_cases hik : i < k
  · simp [hik, Nat.not_le.mpr hik]
  · have hm : m.testBit i = false := by
      apply Nat.testBit_lt_two_pow
      calc m < 2 ^ k := h
        _ ≤ 2 ^ i := Nat.pow_le_pow_right (by norm_num) (Nat.le_of_not_lt hik)
    simp [hik, Nat.le_of_not_lt hik, hm]

theorem and_mod_1 (x : Nat) : x &&& 1 = x % 2 := by
  simpa using Nat.and_pow_two_sub_one_eq_mod x 1
theorem and_mod_3 (x : Nat) : x &&& 3 = x % 4 := by
  simpa using Nat.and_pow_two_sub_one_eq_mod x 2
theorem and_mod_7 (x : Nat) : x &&& 7 = x % 8 := by
  simpa using Nat.and_pow_two_sub_one_eq_mod x 3
theorem and_mod_15 (x : Nat) : x &&& 15 = x % 16 := by
  simpa using Nat.and_pow_two_sub_one_eq_mod x 4
theorem and_mod_31 (x : Nat) : x &&& 31 = x % 32 := by
  simpa using Nat.and_pow_two_sub_one_eq_mod x 5
theorem and_mod_63 (x : Nat) : x &&& 63 = x % 64 := by
  simpa using Nat.and_pow_two_sub_one_eq_mod x 6
theorem and_mod_127 (x : Nat) : x &&& 127 = x % 128 := by
  simpa using Nat.and_pow_two_sub_one_eq_mod x 7
theorem and_mod_255 (x : Nat) : x &&& 255 = x % 256 := by
  simpa using Nat.and_pow_two_sub_one_eq_mod x 8
theorem and_mask_40 (x : Nat) : x &&& (1 <<< 40 - 1) = x % 2 ^ 40 := by
  have h := Nat.and_pow_two_sub_one_eq_mod x 40
  rwa [show ((1:Nat) <<< 40) = 2 ^ 40 by rw [Nat.shiftLeft_eq, one_mul]]
theorem and_mask_48 (x : Nat) : x &&& (1 <<< 48 - 1) = x % 2 ^ 48 := by
  have h := Nat.and_pow_two_sub_one_eq_mod x 48
  rwa [show ((1:Nat) <<< 48) = 2 ^ 48 by rw [Nat.shiftLeft_eq, one_mul]]
theorem and_mask_56 (x : Nat) : x &&& (1 <<< 56 - 1) = x % 2 ^ 56 := by
  have h := Nat.and_pow_two_sub_one_eq_mod x 56
  rwa [show ((1:Nat) <<< 56) = 2 ^ 56 by rw [Nat.shiftLeft_eq, one_mul]]

theorem leBytes_ne_nil (k w : Nat) (hk : 0 < k) : leBytes k w ≠ [] := by
  intro h
  have := congrArg List.length h
  simp [leBytes] at this
  omega

theorem getD_list_eq_self (l : List Nat) (h : l.length = 8) :
    [l.getD 0 0, l.getD 1 0, l.getD 2 0, l.getD 3 0,
     l.getD 4 0, l.getD 5 0, l.getD 6 0, l.getD 7 0] = l := by
  match l with
  | [y0, y1, y2, y3, y4, y5, y6, y7] => rfl
  | [] | [_] | [_, _] | [_, _, _] | [_, _, _, _] | [_, _, _, _, _]
  | [_, _, _, _, _, _] | [_, _, _, _, _, _, _] =>
    simp at h
  | y0 :: y1 :: y2 :: y3 :: y4 :: y5 :: y6 :: y7 :: y8 :: rest =>
    simp at h

/-! ### Decoding each encoder branch -/

theorem decode_leBytes_1 (v : Nat) (hv : v < 2 ^ 7) :
    decode_varint (leBytes 1 (v * 2)) = some (v, 1) := by
  have hx32 : fromLE (padBuf 4 (leBytes 1 (v * 2))) = v * 2 := by
    rw [fromLE_padBuf_leBytes]; norm_num; omega
  have hx8 : fromLE (padBuf 1 (leBytes 1 (v * 2))) = v * 2 := by
    rw [fromLE_padBuf_leBytes]; norm_num; omega
  unfold decode_varint
  rw [if_neg (by simpa using leBytes_ne_nil 1 _ (by norm_num)), hx32, hx8, and_mod_1]
  have t1 : (v * 2) % 2 = 0 := by omega
  rw [if_pos t1, Nat.shiftRight_eq_div_pow]
  norm_num

theorem decode_leBytes_2 (v : Nat) (hv : v < 2 ^ 14) :
    decode_varint (leBytes 2 (v * 4 + 1)) = some (v, 2) := by
  have hx32 : fromLE (padBuf 4 (leBytes 2 (v * 4 + 1))) = v * 4 + 1 := by
    rw [fromLE_padBuf_leBytes]; norm_num; omega
  have hx16 : fromLE (padBuf 2 (leBytes 2 (v * 4 + 1))) = v * 4 + 1 := by
    rw [fromLE_padBuf_leBytes]; norm_num; omega
  unfold decode_varint
  rw [if_neg (by simpa using leBytes_ne_nil 2 _ (by norm_num)), hx32, hx16,
    and_mod_1, and_mod_3]
  obtain ⟨t1, t2⟩ : ¬(v * 4 + 1) % 2 = 0 ∧ (v * 4 + 1) % 4 = 1 := by
    constructor <;> omega
  rw [if_neg t1, if_pos t2, Nat.shiftRight_eq_div_pow]
  norm_num
  omega

theorem decode_leBytes_3 (v : Nat) (hv : v < 2 ^ 21) :
    decode_varint (leBytes 3 (v * 8 + 3)) = some (v, 3) := by
  have hx32 : fromLE (padBuf 4 (leBytes 3 (v * 8 + 3))) = v * 8 + 3 := by
    rw [fromLE_padBuf_leBytes]; norm_num; omega
  have hx24 : fromLE (padBuf 3 (leBytes 3 (v * 8 + 3)) ++ [0]) = v * 8 + 3 := by
    rw [show ([0] : List Nat) = List.replicate 1 0 from rfl,
      fromLE_append_replicate_zero, fromLE_padBuf_leBytes]
    norm_num
    omega
  unfold decode_varint
  rw [if_neg (by simpa using leBytes_ne_nil 3 _ (by norm_num)), hx32, hx24,
    and_mod_1, and_mod_3, and_mod_7]
  obtain ⟨t1, t2, t3⟩ :
      ¬(v * 8 + 3) % 2 = 0 ∧ ¬(v * 8 + 3) % 4 = 1 ∧ (v * 8 + 3) % 8 = 3 := by
    refine ⟨?_, ?_, ?_⟩ <;> omega
  rw [if_neg t1, if_neg t2, if_pos t3, Nat.shiftRight_eq_div_pow]
  norm_num
  omega

theorem decode_leBytes_4 (v : Nat) (hv : v < 2 ^ 28) :
    decode_varint (leBytes 4 (v * 16 + 7)) = some (v, 4) := by
  have hx32 : fromLE (padBuf 4 (leBytes 4 (v * 16 + 7))) = v * 16 + 7 := by
    rw [fromLE_padBuf_leBytes]; norm_num; omega
  unfold decode_varint
  rw [if_neg (by simpa using leBytes_ne_nil 4 _ (by norm_num)), hx32,
    and_mod_1, and_mod_3, and_mod_7, and_mod_15]
  obtain ⟨t1, t2, t3, t4⟩ :
      ¬(v * 16 + 7) % 2 = 0 ∧ ¬(v * 16 + 7) % 4 = 1 ∧ ¬(v * 16 + 7) % 8 = 3 ∧
        (v * 16 + 7) % 16 = 7 := by
    refine ⟨?_, ?_, ?_, ?_⟩ <;> omega
  rw [if_neg t1, if_neg t2, if_neg t3, if_pos t4, Nat.shiftRight_eq_div_pow]
  norm_num
  omega

theorem decode_leBytes_5 (v : Nat) (hv : v < 2 ^ 35) :
    decode_varint (leBytes 5 (v * 32 + 15)) = some (v, 5) := by
  have hx32 : fromLE (padBuf 4 (leBytes 5 (v * 32 + 15))) = (v * 32 + 15) % 2 ^ 32 := by
    rw [fromLE_padBuf_leBytes]
    norm_num
  have hx64 : fromLE (padBuf 8 (leBytes 5 (v * 32 + 15))) = v * 32 + 15 := by
    rw [fromLE_padBuf_leBytes]; norm_num; omega
  unfold decode_varint
  rw [if_neg (by simpa using leBytes_ne_nil 5 _ (by norm_num)), hx32, hx64,
    and_mod_1, and_mod_3, and_mod_7, and_mod_15, and_mod_31]
  obtain ⟨t1, t2, t3, t4, t5⟩ :
      ¬(v * 32 + 15) % 2 ^ 32 % 2 = 0 ∧ ¬(v * 32 + 15) % 2 ^ 32 % 4 = 1 ∧
        ¬(v * 32 + 15) % 2 ^ 32 % 8 = 3 ∧ ¬(v * 32 + 15) % 2 ^ 32 % 16 = 7 ∧
        (v * 32 + 15) % 2 ^ 32 % 32 = 15 := by
    refine ⟨?_, ?_, ?_, ?_, ?_⟩ <;> omega
  rw [if_neg t1, if_neg t2, if_neg t3, if_neg t4, if_pos t5,
    Nat.shiftRight_eq_div_pow, and_mask_40]
  norm_num
  omega

theorem decode_leBytes_6 (v : Nat) (hv : v < 2 ^ 42) :
    decode_varint (leBytes 6 (v * 64 + 31)) = some (v, 6) := by
  have hx32 : fromLE (padBuf 4 (leBytes 6 (v * 64 + 31))) = (v * 64 + 31) % 2 ^ 32 := by
    rw [fromLE_padBuf_leBytes]
    norm_num
  have hx64 : fromLE (padBuf 8 (leBytes 6 (v * 64 + 31))) = v * 64 + 31 := by
    rw [fromLE_padBuf_leBytes]; norm_num; omega
  unfold decode_varint
  rw [if_neg (by simpa using leBytes_ne_nil 6 _ (by norm_num)), hx32, hx64,
    and_mod_1, and_mod_3, and_mod_7, and_mod_15, and_mod_31, and_mod_63]
  obtain ⟨t1, t2, t3, t4, t5, t6⟩ :
      ¬(v * 64 + 31) % 2 ^ 32 % 2 = 0 ∧ ¬(v * 64 + 31) % 2 ^ 32 % 4 = 1 ∧
        ¬(v * 64 + 31) % 2 ^ 32 % 8 = 3 ∧ ¬(v * 64 + 31) % 2 ^ 32 % 16 = 7 ∧
        ¬(v * 64 + 31) % 2 ^ 32 % 32 = 15 ∧ (v * 64 + 31) % 2 ^ 32 % 64 = 31 := by
    refine ⟨?_, ?_, ?_, ?_, ?_, ?_⟩ <;> omega
  rw [if_neg t1, if_neg t2, if_neg t3, if_neg t4, if_neg t5, if_pos t6,
    Nat.shiftRight_eq_div_pow, and_mask_48]
  norm_num
  omega

theorem decode_leBytes_7 (v : Nat) (hv : v < 2 ^ 49) :
    decode_varint (leBytes 7 (v * 128 + 63)) = some (v, 7) := by
  have hx32 : fromLE (padBuf 4 (leBytes 7 (v * 128 + 63))) = (v * 128 + 63) % 2 ^ 32 := by
    rw [fromLE_padBuf_leBytes]
    norm_num
  have hx64 : fromLE (padBuf 8 (leBytes 7 (v * 128 + 63))) = v * 128 + 63 := by
    rw [fromLE_padBuf_leBytes]; norm_num; omega
  unfold decode_varint
  rw [if_neg (by simpa using leBytes_ne_nil 7 _ (by norm_num)), hx32, hx64,
    and_mod_1, and_mod_3, and_mod_7, and_mod_15, and_mod_31, and_mod_63, and_mod_127]
  obtain ⟨t1, t2, t3, t4, t5, t6, t7⟩ :
      ¬(v * 128 + 63) % 2 ^ 32 % 2 = 0 ∧ ¬(v * 128 + 63) % 2 ^ 32 % 4 = 1 ∧
        ¬(v * 128 + 63) % 2 ^ 32 % 8 = 3 ∧ ¬(v * 128 + 63) % 2 ^ 32 % 16 = 7 ∧
        ¬(v * 128 + 63) % 2 ^ 32 % 32 = 15 ∧ ¬(v * 128 + 63) % 2 ^ 32 % 64 = 31 ∧
        (v * 128 + 63) % 2 ^ 32 % 128 = 63 := by
    refine ⟨?_, ?_, ?_, ?_, ?_, ?_, ?_⟩ <;> omega
  rw [if_neg t1, if_neg t2, if_neg t3, if_neg t4, if_neg t5, if_neg t6, if_pos t7,
    Nat.shiftRight_eq_div_pow, and_mask_56]
  norm_num
  omega

theorem decode_leBytes_8 (v : Nat) (hv : v < 2 ^ 56) :
    decode_varint (leBytes 8 (v * 256 + 127)) = some (v, 8) := by
  have hx32 : fromLE (padBuf 4 (leBytes 8 (v * 256 + 127))) = (v * 256 + 127) % 2 ^ 32 := by
    rw [fromLE_padBuf_leBytes]
    norm_num
  have hx64 : fromLE (padBuf 8 (leBytes 8 (v * 256 + 127))) = v * 256 + 127 := by
    rw [fromLE_padBuf_leBytes]; norm_num; omega
  unfold decode_varint
  rw [if_neg (by simpa using leBytes_ne_nil 8 _ (by norm_num)), hx32, hx64,
    and_mod_1, and_mod_3, and_mod_7, and_mod_15, and_mod_31, and_mod_63, and_mod_127,
    and_mod_255]
  obtain ⟨t1, t2, t3, t4, t5, t6, t7, t8⟩ :
      ¬(v * 256 + 127) % 2 ^ 32 % 2 = 0 ∧ ¬(v * 256 + 127) % 2 ^ 32 % 4 = 1 ∧
        ¬(v * 256 + 127) % 2 ^ 32 % 8 = 3 ∧ ¬(v * 256 + 127) % 2 ^ 32 % 16 = 7 ∧
        ¬(v * 256 + 127) % 2 ^ 32 % 32 = 15 ∧ ¬(v * 256 + 127) % 2 ^ 32 % 64 = 31 ∧
        ¬(v * 256 + 127) % 2 ^ 32 % 128 = 63 ∧ (v * 256 + 127) % 2 ^ 32 % 256 = 127 := by
    refine ⟨?_, ?_, ?_, ?_, ?_, ?_, ?_, ?_⟩ <;> omega
  rw [if_neg t1, if_neg t2, if_neg t3, if_neg t4, if_neg t5, if_neg t6, if_neg t7,
    if_pos t8, Nat.shiftRight_eq_div_pow]
  norm_num
  omega

theorem decode_cons_255 (v : Nat) (hv : v < 2 ^ 64) :
    decode_varint (255 :: leBytes 8 v) = some (v, 9) := by
  have hx32 : fromLE (padBuf 4 (255 :: leBytes 8 v)) = 255 + 256 * (v % 2 ^ 24) := by
    have htake : (255 :: leBytes 8 v).take 4 = 255 :: leBytes 3 v := by
      rw [List.take_cons (by norm_num), leBytes_take]
      norm_num
    have hlen : (4 : Nat) - (255 :: leBytes 8 v).length = 0 := by
      simp [leBytes_length]
    rw [padBuf, htake, hlen, List.replicate_zero, List.append_nil, fromLE,
      fromLE_leBytes]
  have hlist : [(255 :: leBytes 8 v).getD 1 0, (255 :: leBytes 8 v).getD 2 0,
      (255 :: leBytes 8 v).getD 3 0, (255 :: leBytes 8 v).getD 4 0,
      (255 :: leBytes 8 v).getD 5 0, (255 :: leBytes 8 v).getD 6 0,
      (255 :: leBytes 8 v).getD 7 0, (255 :: leBytes 8 v).getD 8 0] = leBytes 8 v := by
    simp only [List.getD_cons_succ]
    exact getD_list_eq_self _ (leBytes_length 8 v)
  unfold decode_varint
  rw [if_neg (by simp), hx32,
    and_mod_1, and_mod_3, and_mod_7, and_mod_15, and_mod_31, and_mod_63, and_mod_127,
    and_mod_255]
  obtain ⟨t1, t2, t3, t4, t5, t6, t7, t8⟩ :
      ¬(255 + 256 * (v % 2 ^ 24)) % 2 = 0 ∧ ¬(255 + 256 * (v % 2 ^ 24)) % 4 = 1 ∧
        ¬(255 + 256 * (v % 2 ^ 24)) % 8 = 3 ∧ ¬(255 + 256 * (v % 2 ^ 24)) % 16 = 7 ∧
        ¬(255 + 256 * (v % 2 ^ 24)) % 32 = 15 ∧
        ¬(255 + 256 * (v % 2 ^ 24)) % 64 = 31 ∧
        ¬(255 + 256 * (v % 2 ^ 24)) % 128 = 63 ∧
        ¬(255 + 256 * (v % 2 ^ 24)) % 256 = 127 := by
    refine ⟨?_, ?_, ?_, ?_, ?_, ?_, ?_, ?_⟩ <;> omega
  rw [if_neg t1, if_neg t2, if_neg t3, if_neg t4, if_neg t5, if_neg t6, if_neg t7,
    if_neg t8, if_neg (by simp [leBytes_length]), hlist, fromLE_leBytes]
  norm_num
  omega

/-! ### Encoder branch normal forms -/

theorem encode_eq_1 (v : Nat) (h2 : v < 2 ^ 7) :
    encode_varint v = leBytes 1 (v * 2) := by
  unfold encode_varint
  rw [if_pos (by rw [Nat.shiftLeft_eq]; norm_num; omega), Nat.shiftLeft_eq]

theorem encode_eq_2 (v : Nat) (h1 : 2 ^ 7 ≤ v) (h2 : v < 2 ^ 14) :
    encode_varint v = leBytes 2 (v * 4 + 1) := by
  unfold encode_varint
  rw [if_neg (by rw [Nat.shiftLeft_eq]; norm_num; omega),
    if_pos (by rw [Nat.shiftLeft_eq]; norm_num; omega),
    lor_shiftLeft_add v 2 1 (by norm_num)]
  norm_num

theorem encode_eq_3 (v : Nat) (h1 : 2 ^ 14 ≤ v) (h2 : v < 2 ^ 21) :
    encode_varint v = leBytes 3 (v * 8 + 3) := by
  unfold encode_varint
  rw [if_neg (by rw [Nat.shiftLeft_eq]; norm_num; omega),
    if_neg (by rw [Nat.shiftLeft_eq]; norm_num; omega),
    if_pos (by rw [Nat.shiftLeft_eq]; norm_num; omega),
    lor_shiftLeft_add v 3 3 (by norm_num)]
  norm_num

theorem encode_eq_4 (v : Nat) (h1 : 2 ^ 21 ≤ v) (h2 : v < 2 ^ 28) :
    encode_varint v = leBytes 4 (v * 16 + 7) := by
  unfold encode_varint
  rw [if_neg (by rw [Nat.shiftLeft_eq]; norm_num; omega),
    if_neg (by rw [Nat.shiftLeft_eq]; norm_num; omega),
    if_neg (by rw [Nat.shiftLeft_eq]; norm_num; omega),
    if_pos (by rw [Nat.shiftLeft_eq]; norm_num; omega),
    lor_shiftLeft_add v 4 7 (by norm_num)]
  norm_num

theorem encode_eq_5 (v : Nat) (h1 : 2 ^ 28 ≤ v) (h2 : v < 2 ^ 35) :
    encode_varint v = leBytes 5 (v * 32 + 15) := by
  unfold encode_varint
  rw [if_neg (by rw [Nat.shiftLeft_eq]; norm_num; omega),
    if_neg (by rw [Nat.shiftLeft_eq]; norm_num; omega),
    if_neg (by rw [Nat.shiftLeft_eq]; norm_num; omega),
    if_neg (by rw [Nat.shiftLeft_eq]; norm_num; omega),
    if_pos (by rw [Nat.shiftLeft_eq]; norm_num; omega),
    lor_shiftLeft_add v 5 15 (by norm_num)]
  norm_num

theorem encode_eq_6 (v : Nat) (h1 : 2 ^ 35 ≤ v) (h2 : v < 2 ^ 42) :
    encode_varint v = leBytes 6 (v * 64 + 31) := by
  unfold encode_varint
  rw [if_neg (by rw [Nat.shiftLeft_eq]; norm_num; omega),
    if_neg (by rw [Nat.shiftLeft_eq]; norm_num; omega),
    if_neg (by rw [Nat.shiftLeft_eq]; norm_num; omega),
    if_neg (by rw [Nat.shiftLeft_eq]; norm_num; omega),
    if_neg (by rw [Nat.shiftLeft_eq]; norm_num; omega),
    if_pos (by rw [Nat.shiftLeft_eq]; norm_num; omega),
    lor_shiftLeft_add v 6 31 (by norm_num)]
  norm_num

theorem encode_eq_7 (v : Nat) (h1 : 2 ^ 42 ≤ v) (h2 : v < 2 ^ 49) :
    encode_varint v = leBytes 7 (v * 128 + 63) := by
  unfold encode_varint
  rw [if_neg (by rw [Nat.shiftLeft_eq]; norm_num; omega),
    if_neg (by rw [Nat.shiftLeft_eq]; norm_num; omega),
    if_neg (by rw [Nat.shiftLeft_eq]; norm_num; omega),
    if_neg (by rw [Nat.shiftLeft_eq]; norm_num; omega),
    if_neg (by rw [Nat.shiftLeft_eq]; norm_num; omega),
    if_neg (by rw [Nat.shiftLeft_eq]; norm_num; omega),
    if_pos (by rw [Nat.shiftLeft_eq]; norm_num; omega),
    lor_shiftLeft_add v 7 63 (by norm_num)]
  norm_num

theorem encode_eq_8 (v : Nat) (h1 : 2 ^ 49 ≤ v) (h2 : v < 2 ^ 56) :
    encode_varint v = leBytes 8 (v * 256 + 127) := by
  unfold encode_varint
  rw [if_neg (by rw [Nat.shiftLeft_eq]; norm_num; omega),
    if_neg (by rw [Nat.shiftLeft_eq]; norm_num; omega),
    if_neg (by rw [Nat.shiftLeft_eq]; norm_num; omega),
    if_neg (by rw [Nat.shiftLeft_eq]; norm_num; omega),
    if_neg (by rw [Nat.shiftLeft_eq]; norm_num; omega),
    if_neg (by rw [Nat.shiftLeft_eq]; norm_num; omega),
    if_neg (by rw [Nat.shiftLeft_eq]; norm_num; omega),
    if_pos (by rw [Nat.shiftLeft_eq]; norm_num; omega),
    lor_shiftLeft_add v 8 127 (by norm_num)]
  norm_num

theorem encode_eq_9 (v : Nat) (h1 : 2 ^ 56 ≤ v) :
    encode_varint v = 255 :: leBytes 8 v := by
  unfold encode_varint
  rw [if_neg (by rw [Nat.shiftLeft_eq]; norm_num; omega),
    if_neg (by rw [Nat.shiftLeft_eq]; norm_num; omega),
    if_neg (by rw [Nat.shiftLeft_eq]; norm_num; omega),
    if_neg (by rw [Nat.shiftLeft_eq]; norm_num; omega),
    if_neg (by rw [Nat.shiftLeft_eq]; norm_num; omega),
    if_neg (by rw [Nat.shiftLeft_eq]; norm_num; omega),
    if_neg (by rw [Nat.shiftLeft_eq]; norm_num; omega),
    if_neg (by rw [Nat.shiftLeft_eq]; norm_num; omega)]

/-- C1: for every `v` in `[0, 2^64)`, decoding the bytes produced by
`encode_varint` returns exactly `(v, len(encode(v)))`, and `len(encode(v))`
is the minimum width permitted by the format's width table (1 byte for
`v < 2^7`, 2 bytes for `v < 2^14`, …, 8 bytes for `v < 2^56`, 9 bytes
otherwise). -/
theorem c1_packed_int_roundtrip (v : Nat) (hv : v < 2 ^ 64) :
    decode_varint (encode_varint v) = some (v, (encode_varint v).length) ∧
    (encode_varint v).length = specMinWidth v := by
  rcases (by omega :
      v < 2^7 ∨ (2^7 ≤ v ∧ v < 2^14) ∨ (2^14 ≤ v ∧ v < 2^21) ∨
      (2^21 ≤ v ∧ v < 2^28) ∨ (2^28 ≤ v ∧ v < 2^35) ∨ (2^35 ≤ v ∧ v < 2^42) ∨
      (2^42 ≤ v ∧ v < 2^49) ∨ (2^49 ≤ v ∧ v < 2^56) ∨ 2^56 ≤ v) with
    h | ⟨h1, h2⟩ | ⟨h1, h2⟩ | ⟨h1, h2⟩ | ⟨h1, h2⟩ | ⟨h1, h2⟩ | ⟨h1, h2⟩ | ⟨h1, h2⟩ | h1
  · rw [encode_eq_1 v h, leBytes_length]
    refine ⟨decode_leBytes_1 v h, ?_⟩
    simp only [specMinWidth]
    have u1 : v < 2 ^ 7 := h
    rw [if_pos u1]
  · rw [encode_eq_2 v h1 h2, leBytes_length]
    refine ⟨decode_leBytes_2 v h2, ?_⟩
    simp only [specMinWidth]
    obtain ⟨u1, u2⟩ : ¬v < 2 ^ 7 ∧ v < 2 ^ 14 := by constructor <;> omega
    rw [if_neg u1, if_pos u2]
  · rw [encode_eq_3 v h1 h2, leBytes_length]
    refine ⟨decode_leBytes_3 v h2, ?_⟩
    simp only [specMinWidth]
    obtain ⟨u1, u2, u3⟩ : ¬v < 2 ^ 7 ∧ ¬v < 2 ^ 14 ∧ v < 2 ^ 21 := by
      refine ⟨?_, ?_, ?_⟩ <;> omega
    rw [if_neg u1, if_neg u2, if_pos u3]
  · rw [encode_eq_4 v h1 h2, leBytes_length]
    refine ⟨decode_leBytes_4 v h2, ?_⟩
    simp only [specMinWidth]
    obtain ⟨u1, u2, u3, u4⟩ :
        ¬v < 2 ^ 7 ∧ ¬v < 2 ^ 14 ∧ ¬v < 2 ^ 21 ∧ v < 2 ^ 28 := by
      refine ⟨?_, ?_, ?_, ?_⟩ <;> omega
    rw [if_neg u1, if_neg u2, if_neg u3, if_pos u4]
  · rw [encode_eq_5 v h1 h2, leBytes_length]
    refine ⟨decode_leBytes_5 v h2, ?_⟩
    simp only [specMinWidth]
    obtain ⟨u1, u2, u3, u4, u5⟩ :
        ¬v < 2 ^ 7 ∧ ¬v < 2 ^ 14 ∧ ¬v < 2 ^ 21 ∧ ¬v < 2 ^ 28 ∧ v < 2 ^ 35 := by
      refine ⟨?_, ?_, ?_, ?_, ?_⟩ <;> omega
    rw [if_neg u1, if_neg u2, if_neg u3, if_neg u4, if_pos u5]
  · rw [encode_eq_6 v h1 h2, leBytes_length]
    refine ⟨decode_leBytes_6 v h2, ?_⟩
    simp only [specMinWidth]
    obtain ⟨u1, u2, u3, u4, u5, u6⟩ :
        ¬v < 2 ^ 7 ∧ ¬v < 2 ^ 14 ∧ ¬v < 2 ^ 21 ∧ ¬v < 2 ^ 28 ∧ ¬v < 2 ^ 35 ∧
          v < 2 ^ 42 := by
      refine ⟨?_, ?_, ?_, ?_, ?_, ?_⟩ <;> omega
    rw [if_neg u1, if_neg u2, if_neg u3, if_neg u4, if_neg u5, if_pos u6]
  · rw [encode_eq_7 v h1 h2, leBytes_length]
    refine ⟨decode_leBytes_7 v h2, ?_⟩
    simp only [specMinWidth]
    obtain ⟨u1, u2, u3, u4, u5, u6, u7⟩ :
        ¬v < 2 ^ 7 ∧ ¬v < 2 ^ 14 ∧ ¬v < 2 ^ 21 ∧ ¬v < 2 ^ 28 ∧ ¬v < 2 ^ 35 ∧
          ¬v < 2 ^ 42 ∧ v < 2 ^ 49 := by
      refine ⟨?_, ?_, ?_, ?_, ?_, ?_, ?_⟩ <;> omega
    rw [if_neg u1, if_neg u2, if_neg u3, if_neg u4, if_neg u5, if_neg u6, if_pos u7]
  · rw [encode_eq_8 v h1 h2, leBytes_length]
    refine ⟨decode_leBytes_8 v h2, ?_⟩
    simp only [specMinWidth]
    obtain ⟨u1, u2, u3, u4, u5, u6, u7, u8⟩ :
        ¬v < 2 ^ 7 ∧ ¬v < 2 ^ 14 ∧ ¬v < 2 ^ 21 ∧ ¬v < 2 ^ 28 ∧ ¬v < 2 ^ 35 ∧
          ¬v < 2 ^ 42 ∧ ¬v < 2 ^ 49 ∧ v < 2 ^ 56 := by
      refine ⟨?_, ?_, ?_, ?_, ?_, ?_, ?_, ?_⟩ <;> omega
    rw [if_neg u1, if_neg u2, if_neg u3, if_neg u4, if_neg u5, if_neg u6, if_neg u7,
      if_pos u8]
  · rw [encode_eq_9 v h1,
      show (255 :: leBytes 8 v).length = 9 by simp [leBytes_length]]
    refine ⟨decode_cons_255 v hv, ?_⟩
    simp only [specMinWidth]
    obtain ⟨u1, u2, u3, u4, u5, u6, u7, u8⟩ :
        ¬v < 2 ^ 7 ∧ ¬v < 2 ^ 14 ∧ ¬v < 2 ^ 21 ∧ ¬v < 2 ^ 28 ∧ ¬v < 2 ^ 35 ∧
          ¬v < 2 ^ 42 ∧ ¬v < 2 ^ 49 ∧ ¬v < 2 ^ 56 := by
      refine ⟨?_, ?_, ?_, ?_, ?_, ?_, ?_, ?_⟩ <;> omega
    rw [if_neg u1, if_neg u2, if_neg u3, if_neg u4, if_neg u5, if_neg u6, if_neg u7,
      if_neg u8]

/-- Witness for C1 at `v = 300`. -/
theorem c1_packed_int_roundtrip_witness :
    300 < 2 ^ 64 ∧
      (decode_varint (encode_varint 300) = some (300, (encode_varint 300).length) ∧
        (encode_varint 300).length = specMinWidth 300) :=
  ⟨by norm_num, c1_packed_int_roundtrip 300 (by norm_num)⟩

/-- C4 (code bug): decoding `encode(2^28)` with one trailing `0xFF` byte
does not return `(2^28, 5)` — the 5-byte branch masks with `(1 <<< 40) - 1`
after shifting by 5, so the low 5 bits of the first trailing byte leak into
the decoded value. -/
theorem c4_decode_trailing_byte_bug :
    decode_varint (encode_varint (2 ^ 28) ++ [255]) =
        some (2 ^ 28 + 31 * 2 ^ 35, 5) ∧
      2 ^ 28 + 31 * 2 ^ 35 ≠ 2 ^ 28 := by
  constructor
  · decide
  · decide

/-! ## Misc-substream offsets (`formats/freearc/writer.rs`, `reader.rs`) -/

/-- `FreeArcWriter::finish`: at seal time each data block's recorded absolute
offset `B` is replaced by `dir_start_pos.checked_sub(B)` (the stored value is
the delta `D − B`, never the absolute position); `none` models the
`checked_sub` failure (`expect("Block pos > Dir pos?")`). -/
def sealOffset (dirPos blockPos : Nat) : Option Nat :=
  if blockPos ≤ dirPos then some (dirPos - blockPos) else none

/-- `FreeArcReader::extract_file`: the absolute data-block position is
recovered as `dir_pos.checked_sub(block_info.offset)`; `none` models the
`ok_or(anyhow!("Invalid block offset calculation"))` error. -/
def recoverBlockPos (dirPos storedOffset : Nat) : Option Nat :=
  if storedOffset ≤ dirPos then some (dirPos - storedOffset) else none

/-- C2: for every directory-block position `D` and data-block position `B`
with `B ≤ D`, the writer stores `D − B` at seal time and the reader recovers
the absolute position as `D − (D − B) = B`; only the delta is ever stored. -/
theorem c2_offset_inversion (D B : Nat) (h : B ≤ D) :
    sealOffset D B = some (D - B) ∧ recoverBlockPos D (D - B) = some B := by
  unfold sealOffset recoverBlockPos
  rw [if_pos h, if_pos (by omega)]
  constructor
  · rfl
  · congr 1
    omega

/-- Witness for C2 at `D = 1000`, `B = 64`. -/
theorem c2_offset_inversion_witness :
    64 ≤ 1000 ∧
      (sealOffset 1000 64 = some (1000 - 64) ∧
        recoverBlockPos 1000 (1000 - 64) = some 64) :=
  ⟨by norm_num, c2_offset_inversion 1000 64 (by norm_num)⟩

/-! ## CRC-32 and block descriptors (`formats/freearc/block.rs`) -/

/-- One bit round of the reflected CRC-32 (IEEE polynomial `0xEDB88320`),
as `crc32fast::hash` computes it. -/
def crc32Round (c : Nat) : Nat :=
  if c % 2 = 1 then (c >>> 1) ^^^ 0xEDB88320 else c >>> 1

/-- Fold one byte into the CRC state. -/
def crc32Byte (c b : Nat) : Nat :=
  crc32Round^[8] (c ^^^ b % 256)

/-- `crc32fast::hash`: reflected CRC-32 with init and final xor
`0xFFFFFFFF`. -/
def crc32 (bs : List Nat) : Nat :=
  (bs.foldl crc32Byte 0xFFFFFFFF) ^^^ 0xFFFFFFFF

set_option maxRecDepth 8192 in
example : crc32 [49, 50, 51, 52, 53, 54, 55, 56, 57] = 0xCBF43926 := by decide

/-- `ARC_SIGNATURE` (`formats/freearc/constants.rs`): `"ArC\x01"`. -/
def ARC_SIGNATURE : List Nat := [0x41, 0x72, 0x43, 0x01]

/-- `BlockType` (`formats/freearc/constants.rs`). -/
inductive BlockTypeM where
  | descriptor | header | data | directory | footer | recovery | unknown
deriving DecidableEq

/-- `BlockType::from(u8)`. -/
def BlockTypeM.fromByte (v : Nat) : BlockTypeM :=
  if v = 0 then .descriptor
  else if v = 1 then .header
  else if v = 2 then .data
  else if v = 3 then .directory
  else if v = 4 then .footer
  else if v = 5 then .recovery
  else .unknown

/-- `u8::from(BlockType)`. -/
def BlockTypeM.code : BlockTypeM → Nat
  | .descriptor => 0
  | .header => 1
  | .data => 2
  | .directory => 3
  | .footer => 4
  | .recovery => 5
  | .unknown => 255

/-- `BlockDescriptor` (`formats/freearc/block.rs`); the on-disk position is
not part of the descriptor. -/
structure BlockDescriptorM where
  block_type : BlockTypeM
  compressor : List Nat
  orig_size : Nat
  comp_size : Nat
  crc : Nat
deriving DecidableEq

/-- `read_exact` of `n` bytes from a stream modelled as a byte list. -/
def readBytesS (n : Nat) (s : List Nat) : Option (List Nat × List Nat) :=
  if n ≤ s.length then some (s.take n, s.drop n) else none

/-- `read_stringz` (`formats/freearc/utils.rs`): bytes up to (and consuming)
the first NUL. -/
def readStringzS : List Nat → Option (List Nat × List Nat)
  | [] => none
  | b :: t =>
    if b = 0 then some ([], t)
    else
      match readStringzS t with
      | none => none
      | some (cs, r) => some (b :: cs, r)

/-- `u8::trailing_zeros` (8 for the zero byte). -/
def u8TrailingZeros (b : Nat) : Nat :=
  if b % 2 = 1 then 0
  else if b % 4 = 2 then 1
  else if b % 8 = 4 then 2
  else if b % 16 = 8 then 3
  else if b % 32 = 16 then 4
  else if b % 64 = 32 then 5
  else if b % 128 = 64 then 6
  else if b % 256 = 128 then 7
  else 8

/-- `read_varint` (`formats/freearc/utils.rs`): read the first byte, derive
the number of extra bytes from its trailing zeros (8 extra for `0xFF`), read
exactly that many further bytes, and decode. -/
def readVarintS (s : List Nat) : Option ((Nat × Nat) × List Nat) :=
  match s with
  | [] => none
  | b :: _ =>
    let extra := if b = 255 then 8 else u8TrailingZeros b
    if 1 + extra ≤ s.length then
      match decode_varint (s.take (1 + extra)) with
      | none => none
      | some vc => some (vc, s.drop (1 + extra))
    else none

/-- `BlockDescriptor::read` (`formats/freearc/block.rs`): signature, packed
block type, NUL-terminated compressor, packed sizes, data CRC, then the
stored descriptor CRC — which the code reads and discards
(`TODO: Verify descriptor CRC.`). -/
def BlockDescriptor_read (s : List Nat) : Option (BlockDescriptorM × List Nat) :=
  match readBytesS 4 s with
  | none => none
  | some (sig, s1) =>
    if sig ≠ ARC_SIGNATURE then none
    else
      match readVarintS s1 with
      | none => none
      | some ((btv, _), s2) =>
        match readStringzS s2 with
        | none => none
        | some (comp, s3) =>
          match readVarintS s3 with
          | none => none
          | some ((origSize, _), s4) =>
            match readVarintS s4 with
            | none => none
            | some ((compSize, _), s5) =>
              match readBytesS 4 s5 with
              | none => none
              | some (crcB, s6) =>
                match readBytesS 4 s6 with
                | none => none
                | some (_descCrcB, s7) =>
                  some ({ block_type := BlockTypeM.fromByte (btv % 256),
                          compressor := comp,
                          orig_size := origSize,
                          comp_size := compSize,
                          crc := fromLE crcB }, s7)

/-- A concrete descriptor byte string: magic, block type 3 (Directory) as a
9-byte packed int, empty compressor, sizes 0 as 9-byte packed ints, data
CRC-32 zero — and a stored descriptor CRC-32 of `1`, which does not match
the CRC-32 recomputed over the 36 bytes from the magic through the data-CRC
field. -/
def mismatchedDescBytes : List Nat :=
  [0x41, 0x72, 0x43, 0x01] ++
    [255, 3, 0, 0, 0, 0, 0, 0, 0] ++
    [0] ++
    [255, 0, 0, 0, 0, 0, 0, 0, 0] ++
    [255, 0, 0, 0, 0, 0, 0, 0, 0] ++
    [0, 0, 0, 0] ++
    [1, 0, 0, 0]

set_option maxRecDepth 8192 in
/-- C3 (code bug): a descriptor whose stored descriptor-CRC field (last four
bytes) disagrees with the CRC-32 recomputed over magic‥data-CRC is still
returned as valid by `BlockDescriptor::read` — the code reads the stored CRC
and discards it (`TODO: Verify descriptor CRC.`), so no
`DescriptorCrcMismatch` error is ever raised. -/
theorem c3_descriptor_crc_not_verified :
    crc32 (mismatchedDescBytes.take 36) ≠ fromLE (mismatchedDescBytes.drop 36) ∧
      BlockDescriptor_read mismatchedDescBytes =
        some (⟨.directory, [], 0, 0, 0⟩, []) := by
  constructor
  · decide
  · decide

/-! ## Outer-container codec settings (`zstd-archive/src/lib.rs`,
`openarc-core/src/orchestrator.rs`) -/

/-- `ZstdOptions` (`zstd-archive/src/lib.rs`); `dict` omitted as it is never
set by the orchestrator paths under study. -/
structure ZstdOptionsM where
  level : Int
  include_checksum : Bool
  long_distance_matching : Bool
  threads : Nat
  buffer_size : Nat
  atomic_writes : Bool
deriving DecidableEq

/-- `ZstdOptions::default()`: level 3, checksum on, LDM off, no threads,
1 MiB buffers, atomic writes. -/
def ZstdOptionsM.default : ZstdOptionsM :=
  { level := 3
    include_checksum := true
    long_distance_matching := false
    threads := 0
    buffer_size := 1024 * 1024
    atomic_writes := true }

/-- `ZstdCodec`. -/
structure ZstdCodecM where
  opts : ZstdOptionsM
deriving DecidableEq

/-- `make_zstd` (`orchestrator.rs`): default options with the given level. -/
def make_zstd (level : Int) : ZstdCodecM :=
  ⟨{ ZstdOptionsM.default with level := level }⟩

/-- `OrchestratorSettings` (`orchestrator.rs`), the settings record consumed
by `create_archive`; `staging_dir` omitted (a path option irrelevant to the
claims under study). -/
structure OrchestratorSettingsM where
  bpg_quality : Int
  bpg_lossless : Bool
  bpg_bit_depth : Int
  bpg_chroma_format : Int
  bpg_encoder_type : Int
  bpg_compression_level : Int
  video_preset : Int
  video_crf : Int
  compression_level : Int
  enable_catalog : Bool
  enable_dedup : Bool
  skip_already_compressed_videos : Bool
  heic_quality : Nat
  jpeg_quality : Nat
deriving DecidableEq

/-- `OrchestratorSettings::default()`. -/
def OrchestratorSettingsM.default : OrchestratorSettingsM :=
  { bpg_quality := 25
    bpg_lossless := false
    bpg_bit_depth := 8
    bpg_chroma_format := 1
    bpg_encoder_type := 0
    bpg_compression_level := 8
    video_preset := 0
    video_crf := 23
    compression_level := 22
    enable_catalog := true
    enable_dedup := true
    skip_already_compressed_videos := true
    heic_quality := 90
    jpeg_quality := 92 }

/-- The codec `create_archive` uses to seal the outer container:
`let zstd = make_zstd(3);` — a hard-coded level, not read from the
settings. -/
def createArchiveOuterCodec (_settings : OrchestratorSettingsM) : ZstdCodecM :=
  make_zstd 3

/-- The compression level `create_archive` passes to `create_misc_arc`:
`create_misc_arc(&processed, &misc_arc_path, settings.compression_level)`. -/
def createArchiveMiscLevel (settings : OrchestratorSettingsM) : Int :=
  settings.compression_level

/-- C5 counterexample: with the default settings (whose `compression_level`
is 22) the outer container is sealed at zstd level 3, not at the settings'
`compression_level`. -/
theorem c5_outer_level_ne_settings_level :
    (createArchiveOuterCodec OrchestratorSettingsM.default).opts.level ≠
      OrchestratorSettingsM.default.compression_level := by
  decide

/-- C5 as amended: for every settings record, the outer container is sealed
at the constant zstd level 3, while the settings' `compression_level` field
reaches only the misc-substream codec. -/
theorem c5_outer_level_constant (settings : OrchestratorSettingsM) :
    (createArchiveOuterCodec settings).opts.level = 3 ∧
      createArchiveMiscLevel settings = settings.compression_level :=
  ⟨rfl, rfl⟩

/-! ## Video compression-efficiency classifier
(`codecs/video_analyzer.rs`).  `f64` arithmetic is modelled over `ℚ`; every
comparison exercised here is far from the thresholds, so the two agree. -/

/-- `assess_compression_efficiency` (`video_analyzer.rs`), boolean flag only
(the accompanying reason string carries no decision weight). -/
def assess_compression_efficiency (codec : String) (bitrate_kbps : ℚ)
    (width height : Nat) (file_size : Nat) : Bool :=
  let pixels : ℚ := (width : ℚ) * (height : ℚ)
  let bpp : ℚ :=
    if 0 < pixels ∧ 0 < bitrate_kbps then bitrate_kbps * 1000 / (pixels * 30) else 0
  if 12000 < bitrate_kbps then false
  else if (12 : ℚ) / 100 < bpp then false
  else
    let resolution_factor : ℚ := pixels / (1920 * 1080)
    let size_mb : ℚ := (file_size : ℚ) / (1024 * 1024)
    if 150 * resolution_factor < size_mb then false
    else if bitrate_kbps < 8000 ∧ bpp < (10 : ℚ) / 100 then true
    else if codec = "hevc" ∧ bitrate_kbps < 10000 then true
    else true

/-- The spec's bits-per-pixel-per-frame at 30 fps. -/
def specBpp (bitrate_kbps : ℚ) (width height : Nat) : ℚ :=
  bitrate_kbps * 1000 / ((width : ℚ) * (height : ℚ) * 30)

/-- The spec's three *inefficient* predicates: bitrate > 12000 kbps;
bpp > 0.12; size > 150 MB × pixels/(1920×1080). -/
def specInefficient (bitrate_kbps : ℚ) (width height : Nat)
    (file_size : Nat) : Prop :=
  12000 < bitrate_kbps ∨
    (12 : ℚ) / 100 < specBpp bitrate_kbps width height ∨
    150 * ((width : ℚ) * (height : ℚ) / (1920 * 1080)) <
      (file_size : ℚ) / (1024 * 1024)

/-- The claim's flag condition: (a) bitrate < 8000 and bpp < 0.10; or
(b) HEVC and bitrate < 10000; or (c) no inefficient predicate fires. -/
def specEfficientlyCompressed (codec : String) (bitrate_kbps : ℚ)
    (width height : Nat) (file_size : Nat) : Prop :=
  (bitrate_kbps < 8000 ∧ specBpp bitrate_kbps width height < (10 : ℚ) / 100) ∨
    (codec = "hevc" ∧ bitrate_kbps < 10000) ∨
    ¬ specInefficient bitrate_kbps width height file_size

/-- C6 counterexample: a 1080p h264 video at 5000 kbps (bpp ≈ 0.08) of
200 MB satisfies the claim's disjunct (a), yet the code flags it
inefficient because the file-size check returns early. -/
theorem c6_efficiency_claim_counterexample :
    specEfficientlyCompressed "h264" 5000 1920 1080 200000000 ∧
      assess_compression_efficiency "h264" 5000 1920 1080 200000000 = false := by
  constructor
  · refine Or.inl ⟨by norm_num, ?_⟩
    rw [specBpp]
    norm_num
  · rw [assess_compression_efficiency]
    norm_num

/-- C6 as amended: the video is flagged efficiently compressed iff none of
the three inefficient predicates fires; the claim's disjuncts (a) and (b)
never decide the outcome, because every input that clears the inefficiency
checks is flagged efficient anyway. -/
theorem c6_flag_iff_not_inefficient (codec : String) (bitrate_kbps : ℚ)
    (width height : Nat) (file_size : Nat) :
    assess_compression_efficiency codec bitrate_kbps width height file_size = true ↔
      ¬ specInefficient bitrate_kbps width height file_size := by
  have hpx : (0 : ℚ) ≤ (width : ℚ) * (height : ℚ) := by positivity
  have hbpp : ((12 : ℚ) / 100 <
      (if 0 < (width : ℚ) * (height : ℚ) ∧ 0 < bitrate_kbps then
        bitrate_kbps * 1000 / ((width : ℚ) * (height : ℚ) * 30) else 0)) ↔
      (12 : ℚ) / 100 < specBpp bitrate_kbps width height := by
    rw [specBpp]
    by_cases hg : 0 < (width : ℚ) * (height : ℚ) ∧ 0 < bitrate_kbps
    · rw [if_pos hg]
    · rw [if_neg hg]
      push_neg at hg
      constructor
      · intro h; norm_num at h
      · intro h
        exfalso
        rcases le_or_lt ((width : ℚ) * (height : ℚ)) 0 with hle | hlt
        · have hz : (width : ℚ) * (height : ℚ) = 0 := le_antisymm hle hpx
          rw [hz] at h
          norm_num at h
        · have hb := hg hlt
          have : bitrate_kbps * 1000 / ((width : ℚ) * (height : ℚ) * 30) ≤ 0 := by
            apply div_nonpos_of_nonpos_of_nonneg
            · nlinarith
            · positivity
          nlinarith
  rw [assess_compression_efficiency, specInefficient]
  simp only [hbpp]
  split_ifs with h1 h2 h3 h4 h5 <;> simp_all

/-! ## Worker output paths (`orchestrator.rs`, `create_archive` work loop).
Paths are byte lists (UTF-8); `95` is `'_'`, `46` is `'.'`, `47` is `'/'`. -/

/-- The decimal rendering of a natural number, as `format!("{}", idx)`
produces it (most-significant digit first, `"0"` for zero), as bytes. -/
def natDecBytes (n : Nat) : List Nat :=
  if n = 0 then [48] else ((Nat.digits 10 n).reverse.map (fun d => 48 + d))

/-- `"media/"` as bytes. -/
def mediaDirB : List Nat := [109, 101, 100, 105, 97, 47]

/-- `"misc/"` as bytes. -/
def miscDirB : List Nat := [109, 105, 115, 99, 47]

/-- `".bpg"` as bytes. -/
def bpgExtB : List Nat := [46, 98, 112, 103]

/-- `".mp4"` as bytes. -/
def mp4ExtB : List Nat := [46, 109, 112, 52]

/-- The image slot path `media/{stem}_{idx}.bpg`
(`media_dir.join(format!("{}_{}.bpg", stem, item.idx))`). -/
def imagePath (stem : List Nat) (idx : Nat) : List Nat :=
  mediaDirB ++ stem ++ [95] ++ natDecBytes idx ++ bpgExtB

/-- `FileClass` (`orchestrator.rs`). -/
inductive FileClassM where
  | image | video | misc
deriving DecidableEq

/-- The staging-relative output path each worker writes, per the
`match item.class` arms of `create_archive`: images get
`media/{stem}_{idx}.bpg`; a video that the classifier skips is copied to
`media/{file_name}`; a transcoded video goes to `media/{stem}.mp4`; misc
files are copied to `misc/{file_name}`.  `videoSkip` is the runtime
outcome of `safe_analyze_video`/`skip_already_compressed_videos`. -/
def outRelPath (cls : FileClassM) (stem fileName : List Nat) (idx : Nat)
    (videoSkip : Bool) : List Nat :=
  match cls with
  | .image => imagePath stem idx
  | .video =>
    if videoSkip then mediaDirB ++ fileName
    else mediaDirB ++ stem ++ mp4ExtB
  | .misc => miscDirB ++ fileName

theorem natDecBytes_lt_95 (n : Nat) : ∀ x ∈ natDecBytes n, x < 95 := by
  intro x hx
  unfold natDecBytes at hx
  split at hx
  · simp at hx; omega
  · simp only [List.mem_map, List.mem_reverse] at hx
    obtain ⟨d, hd, rfl⟩ := hx
    have := Nat.digits_lt_base (by norm_num) hd
    omega

theorem digits_rev_map_inj {m n : Nat}
    (h : (Nat.digits 10 m).reverse.map (fun d => 48 + d) =
         (Nat.digits 10 n).reverse.map (fun d => 48 + d)) : m = n := by
  have hrev : (Nat.digits 10 m).reverse = (Nat.digits 10 n).reverse := by
    have hinj : Function.Injective (fun d : Nat => 48 + d) := fun a b hab => by
      simpa using hab
    exact List.map_injective_iff.mpr hinj h
  have hdig : Nat.digits 10 m = Nat.digits 10 n := by
    simpa using congrArg List.reverse hrev
  calc m = Nat.ofDigits 10 (Nat.digits 10 m) := (Nat.ofDigits_digits 10 m).symm
    _ = Nat.ofDigits 10 (Nat.digits 10 n) := by rw [hdig]
    _ = n := Nat.ofDigits_digits 10 n

theorem singleton48_digits {n : Nat}
    (h : [48] = (Nat.digits 10 n).reverse.map (fun d => 48 + d)) : n = 0 := by
  have h3 : [0] = (Nat.digits 10 n).reverse := by
    have h2 := congrArg (List.map (fun x => x - 48)) h
    simpa [List.map_map, Function.comp_def, Nat.add_sub_cancel_left] using h2
  have h4 : Nat.digits 10 n = [0] := by
    simpa using congrArg List.reverse h3.symm
  have h5 := Nat.ofDigits_digits 10 n
  rw [h4] at h5
  simpa [Nat.ofDigits] using h5.symm

theorem natDecBytes_injective {m n : Nat} (h : natDecBytes m = natDecBytes n) :
    m = n := by
  unfold natDecBytes at h
  by_cases hm : m = 0 <;> by_cases hn : n = 0
  · omega
  · rw [if_pos hm, if_neg hn] at h
    exact absurd (singleton48_digits h) hn
  · rw [if_neg hm, if_pos hn] at h
    exact absurd (singleton48_digits h.symm) hm
  · rw [if_neg hm, if_neg hn] at h
    exact digits_rev_map_inj h

theorem append_cons_eq_append_cons {α : Type} {c : α} {xs1 xs2 t1 t2 : List α}
    (h : xs1 ++ c :: t1 = xs2 ++ c :: t2) (h1 : c ∉ xs1) (h2 : c ∉ xs2) :
    xs1 = xs2 ∧ t1 = t2 := by
  induction xs1 generalizing xs2 with
  | nil =>
    cases xs2 with
    | nil => simpa using h
    | cons y ys =>
      simp only [List.nil_append, List.cons_append, List.cons.injEq] at h
      exact absurd (h.1 ▸ List.mem_cons_self y ys) (by simpa [h.1] using h2)
  | cons x xs ih =>
    cases xs2 with
    | nil =>
      simp only [List.cons_append, List.nil_append, List.cons.injEq] at h
      exact absurd (h.1.symm ▸ List.mem_cons_self x xs) (by simpa [h.1] using h1)
    | cons y ys =>
      simp only [List.cons_append, List.cons.injEq] at h
      obtain ⟨rfl, h'⟩ := h
      obtain ⟨e1, e2⟩ := ih h' (fun hc => h1 (List.mem_cons_of_mem _ hc))
        (fun hc => h2 (List.mem_cons_of_mem _ hc))
      exact ⟨by rw [e1], e2⟩

/-- C7 counterexample: two distinct work items (task indices 0 and 1), both
classified Misc with the same basename `a.txt`, are assigned the same
output path `misc/a.txt` — video and misc artefact paths are derived from
the basename or stem alone, without the task index. -/
theorem c7_slot_collision :
    outRelPath .misc [97] [97, 46, 116, 120, 116] 0 false =
        outRelPath .misc [97] [97, 46, 116, 120, 116] 1 false ∧
      (0 : Nat) ≠ 1 := by
  constructor
  · rfl
  · decide

/-- C7 as amended: only image work items get a slot path embedding the task
index, and for those the path determines the index — two distinct image
items never collide; video and misc outputs use the basename or stem alone
and may collide. -/
theorem c7_image_slot_paths_injective (stem1 stem2 f1 f2 : List Nat)
    (i j : Nat) (b1 b2 : Bool)
    (h : outRelPath .image stem1 f1 i b1 = outRelPath .image stem2 f2 j b2) :
    i = j := by
  unfold outRelPath imagePath at h
  have h2 := congrArg List.reverse h
  simp only [List.reverse_append, List.reverse_cons, List.reverse_nil,
    List.nil_append, List.append_assoc, List.singleton_append] at h2
  rw [List.append_cancel_left_eq] at h2
  have h95i : (95 : Nat) ∉ (natDecBytes i).reverse := by
    simp only [List.mem_reverse]
    intro hc
    exact absurd (natDecBytes_lt_95 i 95 hc) (by norm_num)
  have h95j : (95 : Nat) ∉ (natDecBytes j).reverse := by
    simp only [List.mem_reverse]
    intro hc
    exact absurd (natDecBytes_lt_95 j 95 hc) (by norm_num)
  obtain ⟨hd, -⟩ := append_cons_eq_append_cons h2 h95i h95j
  exact natDecBytes_injective (by simpa using congrArg List.reverse hd)

/-- Witness for the amended C7 at two equal concrete image paths. -/
theorem c7_image_slot_paths_injective_witness :
    outRelPath .image [97] [] 4 true = outRelPath .image [97] [] 4 false ∧
      (4 : Nat) = 4 :=
  ⟨rfl, c7_image_slot_paths_injective [97] [97] [] [] 4 4 true false rfl⟩

/-! ## Backup catalog (`openarc-core/src/backup_catalog.rs`).
The catalog table is modelled as an association list from normalised path
to `(size, mtime_secs)`; reading a file's metadata is modelled as an
`Option (size × mtime)` where `none` is an I/O error. -/

/-- `normalize_path`: the `cfg(target_os = "windows")` branch is inactive on
the platforms under study, so the path is returned unchanged. -/
def normalize_path (p : List Nat) : List Nat := p

/-- `BackupCatalog::should_skip_file`: read the file's current size and
mtime (propagating an I/O failure as the outer `none`), look its normalised
path up in `backed_up_files`, and return `Skip` (`some true`) iff both the
recorded size and mtime match exactly; `some none` models `Ok(None)`
(no catalog row). -/
def should_skip_file (cat : List (List Nat × Nat × Nat))
    (meta : Option (Nat × Nat)) (p : List Nat) : Option (Option Bool) :=
  match meta with
  | none => none
  | some (currentSize, currentMtime) =>
    match cat.lookup (normalize_path p) with
    | none => some none
    | some (catSize, catMtime) =>
      some (some (catSize == currentSize && catMtime == currentMtime))

/-- `BackupCatalog::filter_files_to_backup`: `Ok(Some(true))` sends the path
to the skip list, `Ok(Some(false))` and `Ok(None)` to the backup list, and
an error (`Err(e)` — warn and skip) to the skip list; order is preserved
within each list. -/
def filter_files_to_backup (cat : List (List Nat × Nat × Nat))
    (metaOf : List Nat → Option (Nat × Nat)) :
    List (List Nat) → List (List Nat) × List (List Nat)
  | [] => ([], [])
  | p :: rest =>
    let (skip, backup) := filter_files_to_backup cat metaOf rest
    match should_skip_file cat (metaOf p) p with
    | some (some true) => (p :: skip, backup)
    | some (some false) => (skip, p :: backup)
    | some none => (skip, p :: backup)
    | none => (p :: skip, backup)

/-- The per-path skip decision implied by `filter_files_to_backup`'s match. -/
def skipDecision (cat : List (List Nat × Nat × Nat))
    (metaOf : List Nat → Option (Nat × Nat)) (p : List Nat) : Bool :=
  match should_skip_file cat (metaOf p) p with
  | some (some true) => true
  | none => true
  | _ => false

theorem filter_files_fst_eq (cat : List (List Nat × Nat × Nat))
    (metaOf : List Nat → Option (Nat × Nat)) (paths : List (List Nat)) :
    (filter_files_to_backup cat metaOf paths).1 =
      paths.filter (fun p => skipDecision cat metaOf p) := by
  induction paths with
  | nil => rfl
  | cons p rest ih =>
    rw [filter_files_to_backup, List.filter_cons]
    cases hd : should_skip_file cat (metaOf p) p with
    | none =>
      have hsd : skipDecision cat metaOf p = true := by simp [skipDecision, hd]
      simp [hd, hsd, ih]
    | some o =>
      cases o with
      | none =>
        have hsd : skipDecision cat metaOf p = false := by simp [skipDecision, hd]
        simp [hd, hsd, ih]
      | some b =>
        cases b with
        | false =>
          have hsd : skipDecision cat metaOf p = false := by simp [skipDecision, hd]
          simp [hd, hsd, ih]
        | true =>
          have hsd : skipDecision cat metaOf p = true := by simp [skipDecision, hd]
          simp [hd, hsd, ih]

theorem skipDecision_iff (cat : List (List Nat × Nat × Nat))
    (metaOf : List Nat → Option (Nat × Nat)) (p : List Nat) :
    skipDecision cat metaOf p = true ↔
      ((∃ sz mt, metaOf p = some (sz, mt) ∧
          cat.lookup (normalize_path p) = some (sz, mt)) ∨
        metaOf p = none) := by
  unfold skipDecision should_skip_file
  cases hm : metaOf p with
  | none => simp
  | some sm =>
    obtain ⟨cs, cm⟩ := sm
    cases hl : cat.lookup (normalize_path p) with
    | none => simp
    | some r =>
      obtain ⟨rs, rm⟩ := r
      by_cases hb : rs = cs ∧ rm = cm
      · obtain ⟨rfl, rfl⟩ := hb
        simp [hl]
      · have hbf : (rs == cs && rm == cm) = false := by
          rw [← Bool.not_eq_true, Bool.and_eq_true, beq_iff_eq, beq_iff_eq]
          exact hb
        simp only [hbf, hl]
        constructor
        · intro h; exact absurd h (by simp)
        · rintro (⟨sz, mt, hsm, hlk⟩ | hnone)
          · obtain ⟨rfl, rfl⟩ : cs = sz ∧ cm = mt := by
              simpa [Prod.ext_iff] using hsm
            have : rs = cs ∧ rm = cm := by
              simpa [Prod.ext_iff] using hlk
            exact absurd this hb
          · exact absurd hnone (by simp)

/-- C8: for every catalog, metadata oracle and input list, a path lands in
the skip set iff it is among the inputs and either the catalog row for its
normalised path matches its current size and mtime exactly, or reading its
metadata fails; in every other case (no row, or a size/mtime mismatch) it
lands in the backup set. -/
theorem c8_filter_skip_iff (cat : List (List Nat × Nat × Nat))
    (metaOf : List Nat → Option (Nat × Nat)) (paths : List (List Nat))
    (p : List Nat) :
    (p ∈ (filter_files_to_backup cat metaOf paths).1 ↔
      p ∈ paths ∧
        ((∃ sz mt, metaOf p = some (sz, mt) ∧
            cat.lookup (normalize_path p) = some (sz, mt)) ∨
          metaOf p = none)) ∧
    (p ∈ (filter_files_to_backup cat metaOf paths).2 ↔
      p ∈ paths ∧
        ¬((∃ sz mt, metaOf p = some (sz, mt) ∧
            cat.lookup (normalize_path p) = some (sz, mt)) ∨
          metaOf p = none)) := by
  have hsnd : (filter_files_to_backup cat metaOf paths).2 =
      paths.filter (fun q => ! skipDecision cat metaOf q) := by
    induction paths with
    | nil => rfl
    | cons q rest ih =>
      rw [filter_files_to_backup, List.filter_cons]
      cases hd : should_skip_file cat (metaOf q) q with
      | none =>
        have hsd : skipDecision cat metaOf q = true := by simp [skipDecision, hd]
        simp [hd, hsd, ih]
      | some o =>
        cases o with
        | none =>
          have hsd : skipDecision cat metaOf q = false := by simp [skipDecision, hd]
          simp [hd, hsd, ih]
        | some b =>
          cases b with
          | false =>
            have hsd : skipDecision cat metaOf q = false := by
              simp [skipDecision, hd]
            simp [hd, hsd, ih]
          | true =>
            have hsd : skipDecision cat metaOf q = true := by
              simp [skipDecision, hd]
            simp [hd, hsd, ih]
  constructor
  · rw [filter_files_fst_eq, List.mem_filter, skipDecision_iff]
  · rw [hsnd, List.mem_filter]
    rw [show (! skipDecision cat metaOf p) = true ↔
        ¬ (skipDecision cat metaOf p = true) by simp]
    rw [skipDecision_iff]

/-! ## Atomic container seal (`zstd-archive/src/lib.rs`).
The filesystem is modelled as a partial map from paths to contents; the
tar+zstd stream written by `archive_dir_tar_zst`'s closure is modelled as a
list of chunks plus a success flag (`ok = false` means some tar or
compression step returned an error after writing a prefix of the chunks). -/

/-- A filesystem state: path → contents. -/
def Fs : Type := String → Option (List Nat)

/-- `File::create`: truncate/create the file empty. -/
def fsCreate (fs : Fs) (p : String) : Fs :=
  fun q => if q = p then some [] else fs q

/-- A write appends bytes to an open file. -/
def fsAppend (fs : Fs) (p : String) (bytes : List Nat) : Fs :=
  fun q => if q = p then some ((fs p).getD [] ++ bytes) else fs q

/-- `fs::remove_file`. -/
def fsRemove (fs : Fs) (p : String) : Fs :=
  fun q => if q = p then none else fs q

/-- `fs::rename src dst`. -/
def fsRename (fs : Fs) (src dst : String) : Fs :=
  fun q => if q = dst then fs src else if q = src then none else fs q

/-- `temp_path_for`: the extension gains a `.tmp` suffix, so for any
destination with an extension (`<output>.tar.zst` has `zst`) the temp path
is the sibling `dst ++ ".tmp"`. -/
def tempPathFor (dst : String) : String := dst ++ ".tmp"

/-- `atomic_write` (`zstd-archive/src/lib.rs`), the path taken by
`archive_dir_tar_zst` when `atomic_writes` is set (as it is in
`ZstdOptions::default()` and hence in `create_archive`'s `make_zstd(3)`):
create the temp file, stream the closure's writes into it, and then either
(on success) remove any existing destination and rename temp → dst, or
(on failure) remove the temp file and report the error. -/
def atomic_write (fs : Fs) (dst : String) (chunks : List (List Nat))
    (ok : Bool) : Bool × Fs :=
  let tmp := tempPathFor dst
  let fs1 := fsCreate fs tmp
  let fs2 := chunks.foldl (fun s c => fsAppend s tmp c) fs1
  if ok then
    let fs3 := if (fs2 dst).isSome then fsRemove fs2 dst else fs2
    (true, fsRename fs3 tmp dst)
  else
    (false, fsRemove fs2 tmp)

theorem tempPathFor_ne (dst : String) : tempPathFor dst ≠ dst := by
  intro h
  have hlen := congrArg String.length h
  rw [tempPathFor, String.length_append] at hlen
  have h4 : ".tmp".length = 4 := rfl
  omega

theorem foldAppend_at (tmp : String) (chunks : List (List Nat)) :
    ∀ (g : Fs) (bs : List Nat), g tmp = some bs →
      (chunks.foldl (fun s c => fsAppend s tmp c) g) tmp =
        some (bs ++ chunks.flatten) := by
  induction chunks with
  | nil => intro g bs h; simpa using h
  | cons c rest ih =>
    intro g bs h
    rw [List.foldl_cons]
    have hstep : (fsAppend g tmp c) tmp = some (bs ++ c) := by
      simp [fsAppend, h]
    rw [ih _ _ hstep]
    simp [List.flatten]

theorem foldAppend_other (tmp q : String) (hq : q ≠ tmp)
    (chunks : List (List Nat)) :
    ∀ g : Fs, (chunks.foldl (fun s c => fsAppend s tmp c) g) q = g q := by
  induction chunks with
  | nil => intro g; rfl
  | cons c rest ih =>
    intro g
    rw [List.foldl_cons, ih]
    simp [fsAppend, hq]

/-- C10: sealing the outer container is atomic at the output path — the
stream goes to the sibling temp file `dst ++ ".tmp"` and is renamed to the
destination only after every chunk is written, so on success the
destination holds exactly the whole stream; if a tar or compression step
fails the temp file is removed and the destination (present or absent) is
left exactly as it was; and no other path is ever touched. -/
theorem c10_atomic_seal (fs : Fs) (dst : String) (chunks : List (List Nat)) :
    ((atomic_write fs dst chunks false).2 dst = fs dst ∧
      (atomic_write fs dst chunks false).2 (tempPathFor dst) = none) ∧
    (atomic_write fs dst chunks true).2 dst = some chunks.flatten ∧
    (∀ q, q ≠ dst → q ≠ tempPathFor dst →
      (atomic_write fs dst chunks false).2 q = fs q ∧
      (atomic_write fs dst chunks true).2 q = fs q) := by
  have hne := tempPathFor_ne dst
  have hF := foldAppend_at (tempPathFor dst) chunks
    (fsCreate fs (tempPathFor dst)) [] (by simp [fsCreate])
  rw [List.nil_append] at hF
  have hFother : ∀ q, q ≠ tempPathFor dst →
      (chunks.foldl (fun s c => fsAppend s (tempPathFor dst) c)
        (fsCreate fs (tempPathFor dst))) q = fs q := by
    intro q hq
    rw [foldAppend_other _ _ hq]
    simp [fsCreate, hq]
  have hfalse : (atomic_write fs dst chunks false).2 =
      fsRemove (chunks.foldl (fun s c => fsAppend s (tempPathFor dst) c)
        (fsCreate fs (tempPathFor dst))) (tempPathFor dst) := rfl
  have htrue : (atomic_write fs dst chunks true).2 =
      fsRename
        (if ((chunks.foldl (fun s c => fsAppend s (tempPathFor dst) c)
              (fsCreate fs (tempPathFor dst))) dst).isSome then
          fsRemove (chunks.foldl (fun s c => fsAppend s (tempPathFor dst) c)
            (fsCreate fs (tempPathFor dst))) dst
        else
          chunks.foldl (fun s c => fsAppend s (tempPathFor dst) c)
            (fsCreate fs (tempPathFor dst)))
        (tempPathFor dst) dst := rfl
  refine ⟨⟨?fail_dst, ?fail_tmp⟩, ?succ_dst, ?others⟩
  case fail_dst =>
    rw [hfalse]
    simp only [fsRemove, if_neg (Ne.symm hne)]
    exact hFother dst (Ne.symm hne)
  case fail_tmp =>
    rw [hfalse]
    simp [fsRemove]
  case succ_dst =>
    rw [htrue]
    have hr : ∀ G : Fs, fsRename G (tempPathFor dst) dst dst =
        G (tempPathFor dst) := by
      intro G; simp [fsRename]
    rw [hr]
    split_ifs with hd
    · simp only [fsRemove, if_neg hne]
      exact hF
    · exact hF
  case others =>
    intro q hqd hqt
    constructor
    · rw [hfalse]
      simp only [fsRemove, if_neg hqt]
      exact hFother q hqt
    · rw [htrue]
      have hr : ∀ G : Fs, fsRename G (tempPathFor dst) dst q = G q := by
        intro G; simp [fsRename, hqd, hqt]
      rw [hr]
      split_ifs with hd
      · simp only [fsRemove, if_neg hqd]
        exact hFother q hqt
      · exact hFother q hqt

/-! ## Progress counter and completion channel (`orchestrator.rs`).
Each worker runs `let seq = completed_count.fetch_add(1, Relaxed); tx.send(WorkDone { idx: seq, .. })`
— two separate actions that other workers may interleave between.  The
channel is FIFO; the single progress thread invokes the callback with
`done.idx + 1` in channel order.  A worker is modelled by a status: not yet
at the `fetch_add` (`idle`), holding a sequence number but not yet sent
(`ready k`), or sent (`finished`). -/

/-- A worker's position in the `fetch_add`-then-`send` protocol. -/
inductive WStatus where
  | idle
  | ready (seq : Nat)
  | finished
deriving DecidableEq

/-- Shared state: the atomic counter, the channel contents (in send order),
and each worker's status. -/
structure ProgressState (n : Nat) where
  counter : Nat
  chan : List Nat
  workers : Fin n → WStatus

/-- One interleaved action: a worker's `fetch_add` (atomically takes the
current counter value and increments), or its `send` (appends its taken
value to the FIFO channel). -/
inductive ProgressStep (n : Nat) : ProgressState n → ProgressState n → Prop where
  | fetchAdd (s : ProgressState n) (w : Fin n) (h : s.workers w = .idle) :
      ProgressStep n s
        ⟨s.counter + 1, s.chan, Function.update s.workers w (.ready s.counter)⟩
  | send (s : ProgressState n) (w : Fin n) (k : Nat) (h : s.workers w = .ready k) :
      ProgressStep n s
        ⟨s.counter, s.chan ++ [k], Function.update s.workers w .finished⟩

/-- Counter at zero, channel empty, no worker started. -/
def initState (n : Nat) : ProgressState n := ⟨0, [], fun _ => .idle⟩

/-- The sequence number a worker holds but has not yet sent. -/
def statusSeqs : WStatus → Multiset Nat
  | .ready k => {k}
  | _ => 0

/-- All taken-but-unsent sequence numbers. -/
def pendingSeqs {n : Nat} (s : ProgressState n) : Multiset Nat :=
  ∑ w : Fin n, statusSeqs (s.workers w)

/-- How many workers have passed their `fetch_add`. -/
def startedCount {n : Nat} (s : ProgressState n) : Nat :=
  ∑ w : Fin n, (if s.workers w = .idle then 0 else 1)

/-- The conserved quantity: channel plus pending holds exactly the counter
values handed out so far, and the counter equals the number of workers that
have started. -/
def ProgressInv {n : Nat} (s : ProgressState n) : Prop :=
  (↑s.chan + pendingSeqs s = Multiset.range s.counter) ∧
    s.counter = startedCount s

theorem sum_comp_update {M : Type} [AddCommMonoid M] {n : Nat}
    (f : Fin n → WStatus) (w : Fin n) (b : WStatus) (g : WStatus → M) :
    ∑ x : Fin n, g (Function.update f w b x) =
      g b + ∑ x ∈ Finset.univ \ {w}, g (f x) := by
  have hfun : (fun x => g (Function.update f w b x)) =
      Function.update (fun x => g (f x)) w (g b) := by
    funext x
    by_cases hx : x = w
    · subst hx; simp
    · simp [Function.update, hx]
  calc ∑ x : Fin n, g (Function.update f w b x)
      = ∑ x : Fin n, Function.update (fun y => g (f y)) w (g b) x := by rw [hfun]
    _ = g b + ∑ x ∈ Finset.univ \ {w}, g (f x) :=
        Finset.sum_update_of_mem (Finset.mem_univ w) _ _

theorem progress_inv_init (n : Nat) : ProgressInv (initState n) := by
  constructor
  · simp [initState, pendingSeqs, statusSeqs, Multiset.range_zero]
  · simp [initState, startedCount]

theorem progress_inv_step {n : Nat} {s s' : ProgressState n}
    (h : ProgressStep n s s') (hs : ProgressInv s) : ProgressInv s' := by
  obtain ⟨h1, h2⟩ := hs
  cases h with
  | fetchAdd w hw =>
    constructor
    · show ↑s.chan + pendingSeqs _ = Multiset.range (s.counter + 1)
      unfold pendingSeqs
      dsimp only
      rw [sum_comp_update]
      have hold : pendingSeqs s =
          ∑ x ∈ Finset.univ \ {w}, statusSeqs (s.workers x) := by
        unfold pendingSeqs
        rw [Finset.sum_eq_sum_diff_singleton_add (Finset.mem_univ w), hw]
        simp [statusSeqs]
      rw [show Multiset.range (s.counter + 1) =
          s.counter ::ₘ Multiset.range s.counter from Multiset.range_succ s.counter,
        ← h1, hold]
      simp only [statusSeqs]
      rw [show ∀ (a : Multiset Nat) (k : Nat), k ::ₘ a = {k} + a from fun a k => by
        simp [Multiset.singleton_add]]
      abel
    · show s.counter + 1 = startedCount _
      unfold startedCount
      dsimp only
      rw [sum_comp_update s.workers w (.ready s.counter)
        (fun st => if st = .idle then 0 else 1)]
      have hold : startedCount s =
          ∑ x ∈ Finset.univ \ {w}, (if s.workers x = .idle then 0 else 1) := by
        unfold startedCount
        rw [Finset.sum_eq_sum_diff_singleton_add (Finset.mem_univ w), hw]
        simp
      rw [h2, hold]
      simp
      omega
  | send w k hw =>
    constructor
    · show ↑(s.chan ++ [k]) + pendingSeqs _ = Multiset.range s.counter
      unfold pendingSeqs
      dsimp only
      rw [sum_comp_update]
      have hold : pendingSeqs s =
          {k} + ∑ x ∈ Finset.univ \ {w}, statusSeqs (s.workers x) := by
        unfold pendingSeqs
        rw [Finset.sum_eq_sum_diff_singleton_add (Finset.mem_univ w), hw]
        simp only [statusSeqs]
        abel
      rw [← Multiset.coe_add, ← h1, hold]
      simp only [statusSeqs, Multiset.coe_singleton]
      abel
    · show s.counter = startedCount _
      unfold startedCount
      dsimp only
      rw [sum_comp_update s.workers w .finished
        (fun st => if st = .idle then 0 else 1)]
      have hold : startedCount s =
          (∑ x ∈ Finset.univ \ {w}, (if s.workers x = .idle then 0 else 1)) + 1 := by
        unfold startedCount
        rw [Finset.sum_eq_sum_diff_singleton_add (Finset.mem_univ w), hw]
        simp
      rw [h2, hold]
      simp
      omega

theorem progress_inv_reach {n : Nat} {s : ProgressState n}
    (h : Relation.ReflTransGen (ProgressStep n) (initState n) s) :
    ProgressInv s := by
  induction h with
  | refl => exact progress_inv_init n
  | tail hab hbc ih => exact progress_inv_step hbc ih

theorem chan_perm {n : Nat} {s : ProgressState n}
    (hreach : Relation.ReflTransGen (ProgressStep n) (initState n) s)
    (hdone : ∀ w, s.workers w = .finished) :
    s.chan.Perm (List.range n) := by
  obtain ⟨h1, h2⟩ := progress_inv_reach hreach
  have hpend : pendingSeqs s = 0 := by
    unfold pendingSeqs
    apply Finset.sum_eq_zero
    intro w _
    rw [hdone w]
    rfl
  have hcount : startedCount s = n := by
    unfold startedCount
    rw [Finset.sum_congr rfl (fun w _ => by rw [hdone w])]
    simp
  rw [hpend, add_zero] at h1
  rw [h2, hcount] at h1
  rw [← Multiset.coe_range] at h1
  exact Multiset.coe_eq_coe.mp h1

/-- C9 counterexample: with two workers, the interleaving «worker 0 takes
sequence 0, worker 1 takes sequence 1, worker 1 sends, worker 0 sends»
reaches a completed run whose callback sequence is `[2, 1]` — not strictly
increasing.  `fetch_add` and `send` are separate actions, so the delivery
order can invert the counter order. -/
theorem c9_progress_not_monotonic :
    ∃ s : ProgressState 2,
      Relation.ReflTransGen (ProgressStep 2) (initState 2) s ∧
      (∀ w, s.workers w = .finished) ∧
      s.chan.map (· + 1) = [2, 1] ∧
      ¬ List.Chain' (· < ·) [2, 1] := by
  refine ⟨_, Relation.ReflTransGen.tail (Relation.ReflTransGen.tail
    (Relation.ReflTransGen.tail (Relation.ReflTransGen.tail Relation.ReflTransGen.refl
        (ProgressStep.fetchAdd (initState 2) 0 rfl))
      (ProgressStep.fetchAdd _ 1 (by decide)))
    (ProgressStep.send _ 1 1 (by decide)))
    (ProgressStep.send _ 0 0 (by decide)), ?_, ?_, ?_⟩
  · intro w
    fin_cases w <;> decide
  · decide
  · simp [List.chain'_cons, List.chain'_singleton]

/-- C9 as amended: in every complete run the callback receives the
completed-count values `1..total` each exactly once (a permutation of
`1..total`), even when workers finish out of order; strict monotonicity of
the delivered order is not guaranteed. -/
theorem c9_progress_counts_permutation {n : Nat} {s : ProgressState n}
    (hreach : Relation.ReflTransGen (ProgressStep n) (initState n) s)
    (hdone : ∀ w, s.workers w = .finished) :
    (s.chan.map (· + 1)).Perm ((List.range n).map (· + 1)) :=
  (chan_perm hreach hdone).map _

/-- Witness for the amended C9: a complete one-worker run delivering `[1]`. -/
theorem c9_progress_counts_permutation_witness :
    (([] ++ [0] : List Nat).map (· + 1)).Perm ((List.range 1).map (· + 1)) :=
  c9_progress_counts_permutation
    (Relation.ReflTransGen.tail (Relation.ReflTransGen.tail Relation.ReflTransGen.refl
        (ProgressStep.fetchAdd (initState 1) 0 rfl))
      (ProgressStep.send _ 0 0 (by decide)))
    (fun w => by fin_cases w <;> decide)

end OpenArc
